import Mathlib

/-!
Shallow embedding of `src/index.js` of the changelog action: range resolution,
paginated commit fetching, conventional-commit parse handling, changelog block
rendering, and the final delivery/emit switch.  External collaborators (the
GraphQL tag lookup, the REST commit fetch and the conventional-commit parsing
library) appear as explicit function parameters; everything else is translated
from the source.
-/

namespace Changelog

/-- One raw commit as returned by the commit-compare endpoint: `commit.sha`,
`commit.commit.message`, `commit.html_url` and the possibly-null
`commit.author.login` / `commit.author.html_url`. -/
structure RawCommit where
  sha : String
  message : String
  htmlUrl : String
  authorLogin : Option String
  authorUrl : Option String
  deriving DecidableEq, Repr

/-- One page of the paginated compare response: `data.total_commits` and
`data.commits`. -/
structure FetchPage where
  total : Nat
  commits : List RawCommit
  deriving DecidableEq, Repr

/-- The do-while pagination loop of `src/index.js` lines 94-114, with an
explicit fuel bound (the JS loop has none; `none` means the fuel ran out
before the loop's own exit condition fired).  `curPage0` is the value of
`curPage` before the `curPage++` of the next iteration, `acc` the commits
accumulated so far.  Returns the accumulated commits together with the final
value of `curPage`, which counts the page requests issued. -/
def fetchPages (fetch : Nat → FetchPage) : Nat → Nat → List RawCommit → Option (List RawCommit × Nat)
  | 0, _, _ => none
  | fuel + 1, curPage0, acc =>
    let curPage := curPage0 + 1
    let page := fetch curPage
    let acc2 := acc ++ page.commits
    if (curPage - 1) * 100 + page.commits.length < page.total then
      fetchPages fetch fuel curPage acc2
    else
      some (acc2, curPage)

/-- Entry point of the fetch loop: `curPage = 0`, empty accumulator. -/
def fetchAllCommits (fetch : Nat → FetchPage) (fuel : Nat) : Option (List RawCommit × Nat) :=
  fetchPages fetch fuel 0 []

/-- A tag node from the GraphQL `lastTags` query (`name`, `target.oid`); the
from/to inputs build endpoints that carry only a name, hence the optional oid. -/
structure TagRef where
  name : String
  oid : Option String := none
  deriving DecidableEq, Repr

/-- The error taxonomy of the range resolver (spec section 7 names for the
four `core.setFailed` calls in lines 38-90). -/
inductive ResolveError where
  | AmbiguousRangeInput
  | NoLatestTag
  | NoPreviousTag
  | TagMismatch
  deriving DecidableEq, Repr

/-- Range resolution, `src/index.js` lines 38-90.  Inputs are the raw action
input strings (JS truthiness of a string is non-emptiness); `tags` is the list
returned by the tag lookup collaborator, most recent first (the code reads
`nodes[0]` and `nodes[1]`). -/
def resolveRange (tag fromTag toTag : String) (tags : List TagRef) :
    Except ResolveError (TagRef × TagRef) :=
  if tag ≠ "" ∧ (fromTag ≠ "" ∨ toTag ≠ "") then
    Except.error ResolveError.AmbiguousRangeInput
  else if tag ≠ "" then
    match tags[0]?, tags[1]? with
    | none, _ => Except.error ResolveError.NoLatestTag
    | some _, none => Except.error ResolveError.NoPreviousTag
    | some latest, some previous =>
      if latest.name ≠ tag then Except.error ResolveError.TagMismatch
      else Except.ok (latest, previous)
  else if fromTag ≠ "" ∧ toTag ≠ "" then
    Except.ok ({ name := fromTag }, { name := toTag })
  else
    Except.error ResolveError.AmbiguousRangeInput

/-- A footer note of the conventional-commit AST (`title`, `text`). -/
structure Note where
  title : String
  text : String
  deriving DecidableEq, Repr

/-- The part of `cc.toConventionalChangelogFormat (cc.parser msg)` that the
action reads: `type`, `scope`, `subject`, `notes`.  The parsing library is an
external collaborator; the pipeline is parameterised by a function
`parse : String → Option CAst`, `none` standing for a parse exception. -/
structure CAst where
  type : String
  scope : Option String
  subject : String
  notes : List Note
  deriving DecidableEq, Repr

/-- JS `String.prototype.toLowerCase` on the characters of the string
(`cAst.type.toLowerCase()`). -/
def jsToLower (s : String) : String :=
  String.mk (s.data.map Char.toLower)

/-- A parsed commit as pushed onto `commitsParsed` (lines 127-134 on success,
lines 150-157 for the fallback). -/
structure ParsedCommit where
  type : String
  scope : Option String
  subject : String
  notes : List Note
  sha : String
  url : String
  author : Option String
  authorUrl : Option String
  deriving DecidableEq, Repr

/-- A breaking-change record as pushed onto `breakingChanges` (lines 137-144). -/
structure BreakingChange where
  sha : String
  url : String
  subject : String
  author : Option String
  authorUrl : Option String
  text : String
  deriving DecidableEq, Repr

/-- The successfully parsed commit record (lines 127-134): the AST spread plus
the lowercased type and the carried-through sha/url/author fields. -/
def mkParsed (c : RawCommit) (ast : CAst) : ParsedCommit :=
  { type := jsToLower ast.type
    scope := ast.scope
    subject := ast.subject
    notes := ast.notes
    sha := c.sha
    url := c.htmlUrl
    author := c.authorLogin
    authorUrl := c.authorUrl }

/-- The breaking-change records of one successfully parsed commit: one per
footer note whose title is exactly `BREAKING CHANGE` (lines 135-146). -/
def bcsOfCommit (c : RawCommit) (ast : CAst) : List BreakingChange :=
  (ast.notes.filter (fun n => n.title == "BREAKING CHANGE")).map (fun n =>
    { sha := c.sha
      url := c.htmlUrl
      subject := ast.subject
      author := c.authorLogin
      authorUrl := c.authorUrl
      text := n.text })

/-- The fallback record pushed when parsing throws and `includeInvalidCommits`
is set (lines 150-157): type `other`, the whole raw message as subject, no
scope and no notes. -/
def fallbackCommit (c : RawCommit) : ParsedCommit :=
  { type := "other"
    scope := none
    subject := c.message
    notes := []
    sha := c.sha
    url := c.htmlUrl
    author := c.authorLogin
    authorUrl := c.authorUrl }

/-- The parse loop of lines 122-163: walks the raw commits in order, pushing
parsed commits and breaking changes; a parse failure either pushes the
fallback record or drops the commit, and never aborts the run. -/
def parseCommits (parse : String → Option CAst) (includeInvalidCommits : Bool) :
    List RawCommit → List ParsedCommit × List BreakingChange
  | [] => ([], [])
  | c :: rest =>
    let tl := parseCommits parse includeInvalidCommits rest
    match parse c.message with
    | some ast => (mkParsed c ast :: tl.1, bcsOfCommit c ast ++ tl.2)
    | none => if includeInvalidCommits then (fallbackCommit c :: tl.1, tl.2) else tl

/-- One row of the fixed category table (lines 7-18).  The `fix` row of the
source also carries a `relIssuePrefix` field; it is never read by the
rendering code and is omitted here. -/
structure CategoryRule where
  types : List String
  header : String
  icon : String
  deriving DecidableEq, Repr

/-- The fixed, ordered category table `types` (lines 7-18). -/
def types : List CategoryRule :=
  [ { types := ["feat", "feature"], header := "New Features", icon := ":sparkles:" }
  , { types := ["fix", "bugfix"], header := "Bug Fixes", icon := ":bug:" }
  , { types := ["perf"], header := "Performance Improvements", icon := ":zap:" }
  , { types := ["refactor"], header := "Refactors", icon := ":recycle:" }
  , { types := ["test", "tests"], header := "Tests", icon := ":white_check_mark:" }
  , { types := ["build", "ci"], header := "Build System", icon := ":construction_worker:" }
  , { types := ["doc", "docs"], header := "Documentation Changes", icon := ":memo:" }
  , { types := ["style"], header := "Code Style Changes", icon := ":art:" }
  , { types := ["chore"], header := "Chores", icon := ":wrench:" }
  , { types := ["other"], header := "Other Changes", icon := ":flying_saucer:" } ]

/-- One Slack block: the code pushes header blocks, mrkdwn section blocks and
divider blocks; only the text distinguishes sections, so the three JSON shapes
become a three-constructor variant. -/
inductive Block where
  | header (text : String)
  | sec (text : String)
  | divider
  deriving DecidableEq, Repr

/-- JS truthiness of a possibly-undefined string field (`undefined` and the
empty string are falsy). -/
def jsTruthy : Option String → Bool
  | none => false
  | some s => s != ""

/-- The category heading text pushed at line 232: icon, space, bold header. -/
def catHeaderText (r : CategoryRule) : String :=
  r.icon ++ " *" ++ r.header ++ "*"

/-- The per-commit section text of lines 237-238: optional bold scope prefix,
subject, optional author, first seven characters of the sha. -/
def commitText (c : ParsedCommit) : String :=
  let slackScope := if jsTruthy c.scope then "*" ++ c.scope.getD "" ++ "*: " else ""
  if jsTruthy c.author then
    slackScope ++ c.subject ++ " by " ++ c.author.getD "" ++ " " ++ c.sha.take 7
  else
    slackScope ++ c.subject ++ " " ++ c.sha.take 7

/-- The per-breaking-change section text of line 202. -/
def bcText (b : BreakingChange) : String :=
  if jsTruthy b.author then
    b.subject ++ " *(by @" ++ b.author.getD "" ++ ")*"
  else
    b.subject

/-- The optional leading header block (lines 179-188): pushed only when the
title input is non-empty. -/
def headerBlocks (title : String) : List Block :=
  if title ≠ "" then [Block.header title] else []

/-- The breaking-changes blocks (lines 192-212): when any breaking change was
collected, one announcing section followed by one section per record. -/
def bcBlocks (bcs : List BreakingChange) : List Block :=
  if 0 < bcs.length then
    Block.sec ":boom: *BREAKING CHANGES*" :: bcs.map (fun b => Block.sec (bcText b))
  else []

/-- The exclusion test of line 215: the rule's alias list intersects the
`excludeTypes` list (`_.intersection(type.types, excludeTypes).length > 0`). -/
def excludedRule (excludeTypes : List String) (r : CategoryRule) : Bool :=
  !(r.types.filter (fun t => excludeTypes.contains t)).isEmpty

/-- The matching-commit selection of line 218:
`commitsParsed.filter(c => type.types.includes(c.type))`. -/
def matchingCommits (r : CategoryRule) (commitsParsed : List ParsedCommit) : List ParsedCommit :=
  commitsParsed.filter (fun c => r.types.contains c.type)

/-- The per-category loop of lines 214-248 over the remaining category rules,
with `idx` counting the groups already rendered (a divider is pushed before a
group exactly when `idx > 0`). -/
def catBlocks (excludeTypes : List String) (commitsParsed : List ParsedCommit) :
    List CategoryRule → Nat → List Block
  | [], _ => []
  | r :: rs, idx =>
    if excludedRule excludeTypes r then
      catBlocks excludeTypes commitsParsed rs idx
    else if (matchingCommits r commitsParsed).length < 1 then
      catBlocks excludeTypes commitsParsed rs idx
    else
      (if 0 < idx then [Block.divider] else []) ++
        Block.sec (catHeaderText r) ::
          ((matchingCommits r commitsParsed).map (fun c => Block.sec (commitText c)) ++
            catBlocks excludeTypes commitsParsed rs (idx + 1))

/-- The whole `slackBlocks` array built by lines 175-248: optional header,
breaking-changes part, then the category loop started with `idx = 1` exactly
when the breaking-changes part rendered. -/
def buildBlocks (title : String) (excludeTypes : List String) (bcs : List BreakingChange)
    (commitsParsed : List ParsedCommit) : List Block :=
  headerBlocks title ++ bcBlocks bcs ++
    catBlocks excludeTypes commitsParsed types (if 0 < bcs.length then 1 else 0)

/-- The payload of lines 250-253: the title as `text` plus the block list. -/
structure Payload where
  text : String
  blocks : List Block
  deriving DecidableEq, Repr

/-- The single fatal empty-result error of the fetch stage (lines 116-118). -/
inductive PipelineError where
  | NoCommitsInRange
  deriving DecidableEq, Repr

/-- The pipeline from the accumulated raw commits to the payload: the
empty-range check of lines 116-118, the parse loop, the conditional
`commitsParsed.reverse()` of lines 169-171 (the already-collected breaking
changes are not reversed), and the block building. -/
def changelog (parse : String → Option CAst) (includeInvalidCommits reverseOrder : Bool)
    (title : String) (excludeTypes : List String) (commits : List RawCommit) :
    Except PipelineError Payload :=
  if commits.length < 1 then
    Except.error PipelineError.NoCommitsInRange
  else
    Except.ok
      { text := title
        blocks :=
          buildBlocks title excludeTypes (parseCommits parse includeInvalidCommits commits).2
            (if reverseOrder then (parseCommits parse includeInvalidCommits commits).1.reverse
             else (parseCommits parse includeInvalidCommits commits).1) }

/-- JS whitespace test used by `String.prototype.trim` (the common ASCII
whitespace characters suffice for this model). -/
def isWS (c : Char) : Bool :=
  c == ' ' || c == '\t' || c == '\n' || c == '\r'

/-- JS `s.split(',')` on the character list of the string: always returns at
least one (possibly empty) field. -/
def splitComma : List Char → List (List Char)
  | [] => [[]]
  | c :: rest =>
    if c = ',' then [] :: splitComma rest
    else
      match splitComma rest with
      | [] => [[c]]
      | g :: gs => (c :: g) :: gs

/-- JS `String.prototype.trim` on a character list. -/
def jsTrim (cs : List Char) : List Char :=
  ((cs.dropWhile isWS).reverse.dropWhile isWS).reverse

/-- Line 27 (and line 28): `(input || '').split(',').map(t => t.trim())`. -/
def jsSplitTrim (s : String) : List String :=
  (splitComma s.data).map (fun cs => String.mk (jsTrim cs))

/-- What the end of `main` does with the payload: either the fan-out delivery
of lines 257-277 or the `payload` output of line 279. -/
inductive SinkAction where
  | deliver (channels : List String) (payload : Payload)
  | emitPayload (payload : Payload)
  deriving DecidableEq, Repr

/-- The delivery switch of lines 257-280:
`slackBotToken.length > 0 && slackChannelIds.length > 0` selects the delivery
branch, the else branch emits the serialized payload as the `payload` output. -/
def sinkStage (slackBotToken slackChannelIdInput : String) (payload : Payload) : SinkAction :=
  let slackChannelIds := jsSplitTrim slackChannelIdInput
  if 0 < slackBotToken.length ∧ 0 < slackChannelIds.length then
    SinkAction.deliver slackChannelIds payload
  else
    SinkAction.emitPayload payload

/-- The category rules actually rendered for a given exclusion list and parsed
commit list: the non-excluded rules with at least one matching commit, in
table order. -/
def renderedRules (excludeTypes : List String) (commitsParsed : List ParsedCommit) :
    List CategoryRule :=
  types.filter (fun r =>
    !excludedRule excludeTypes r && !(decide ((matchingCommits r commitsParsed).length < 1)))

/-- The category loop specialised to the rules it actually renders: one group
per rule, a divider before each group except when it is the very first
rendered group of the whole message. -/
def renderGroups (commitsParsed : List ParsedCommit) : List CategoryRule → Nat → List Block
  | [], _ => []
  | r :: rs, idx =>
    (if 0 < idx then [Block.divider] else []) ++
      Block.sec (catHeaderText r) ::
        ((matchingCommits r commitsParsed).map (fun c => Block.sec (commitText c)) ++
          renderGroups commitsParsed rs (idx + 1))

/-- Divider discipline of a block list: every divider is immediately followed
by a category heading section. -/
def dividersOk : List Block → Prop
  | [] => True
  | Block.divider :: rest =>
    (∃ r, r ∈ types ∧ rest.head? = some (Block.sec (catHeaderText r))) ∧ dividersOk rest
  | _ :: rest => dividersOk rest

/-- A concrete raw commit used as test input. -/
def wCommit : RawCommit :=
  { sha := "s1", message := "m1", htmlUrl := "u1", authorLogin := none, authorUrl := none }

/-- A second concrete raw commit used as test input. -/
def wCommit2 : RawCommit :=
  { sha := "s2", message := "m2", htmlUrl := "u2", authorLogin := none, authorUrl := none }

/-- The `fix: a` commit of the end-to-end scenario. -/
def cFix : RawCommit :=
  { sha := "abc1234000000", message := "fix: a", htmlUrl := "http://x/abc",
    authorLogin := some "alice", authorUrl := some "http://x/u/alice" }

/-- The `feat: b` commit of the end-to-end scenario. -/
def cFeat : RawCommit :=
  { sha := "def5678000000", message := "feat: b", htmlUrl := "http://x/def",
    authorLogin := some "bob", authorUrl := some "http://x/u/bob" }

/-- A concrete stand-in for the conventional-commit parsing collaborator that
parses exactly the two messages of the end-to-end scenario. -/
def parseEx (m : String) : Option CAst :=
  if m == "fix: a" then some { type := "fix", scope := none, subject := "a", notes := [] }
  else if m == "feat: b" then some { type := "feat", scope := none, subject := "b", notes := [] }
  else none

/-- A concrete parsed commit of type `feat`. -/
def wParsedFeat : ParsedCommit :=
  { type := "feat", scope := none, subject := "pb", notes := [], sha := "def5678000000",
    url := "http://x/def", author := some "bob", authorUrl := some "http://x/u/bob" }

/-- A concrete parsed commit of type `chore`. -/
def wParsedChore : ParsedCommit :=
  { type := "chore", scope := none, subject := "pa", notes := [], sha := "abc1234000000",
    url := "http://x/abc", author := some "alice", authorUrl := some "http://x/u/alice" }

/-- A concrete breaking-change record. -/
def wBC : BreakingChange :=
  { sha := "abc1234000000", url := "http://x/abc", subject := "pa",
    author := some "alice", authorUrl := some "http://x/u/alice", text := "removes v1 API" }

/-- A string has positive length exactly when it is not the empty string. -/
theorem length_pos_iff_ne_empty (s : String) : 0 < s.length ↔ s ≠ "" := by
  cases s with
  | mk data =>
    cases data with
    | nil => simp [String.length]
    | cons c cs => simp [String.length, String.ext_iff]

/-- Splitting on commas always yields at least one field. -/
theorem splitComma_ne_nil : ∀ cs : List Char, splitComma cs ≠ []
  | [] => by simp [splitComma]
  | c :: rest => by
    simp only [splitComma]
    by_cases hc : c = ','
    · simp [hc]
    · simp only [if_neg hc]
      cases h : splitComma rest <;> simp

/-- The split-and-trim of the channel input always yields at least one entry. -/
theorem jsSplitTrim_length_pos (s : String) : 0 < (jsSplitTrim s).length := by
  unfold jsSplitTrim
  rw [List.length_map]
  exact List.length_pos.mpr (splitComma_ne_nil s.data)

/-- C1 counterexample: with a configured bot token but an empty
`slackChannelId` input the claim expects the payload to be emitted as the
`payload` output, but the code enters the delivery branch (the comma split of
the empty input yields one empty-string channel, so the channel-count guard
never fails) and attempts delivery to the empty-string channel. -/
theorem c1_delivery_switch_cex :
    sinkStage "x" "" { text := "t", blocks := [] } =
      SinkAction.deliver [""] { text := "t", blocks := [] } := by
  decide

/-- C1 amended: the run delivers directly if and only if `slackBotToken` is
non-empty; the channel list obtained by splitting the `slackChannelId` input
on commas always has at least one entry, so an empty channel input does not
disable delivery, and only an empty `slackBotToken` makes the run emit the
payload unchanged as the `payload` output. -/
theorem c1_delivery_switch_amended (t c : String) (p : Payload) :
    (sinkStage t c p = SinkAction.deliver (jsSplitTrim c) p ↔ t ≠ "")
    ∧ (t = "" → sinkStage t c p = SinkAction.emitPayload p)
    ∧ 0 < (jsSplitTrim c).length := by
  have hc := jsSplitTrim_length_pos c
  refine ⟨?_, ?_, hc⟩
  · by_cases ht : t = ""
    · subst ht
      have hlen : ¬(0 < ("" : String).length) := by decide
      simp [sinkStage, hlen]
    · have hlen : 0 < t.length := (length_pos_iff_ne_empty t).mpr ht
      simp [sinkStage, hlen, hc, ht]
  · intro ht
    subst ht
    have hlen : ¬(0 < ("" : String).length) := by decide
    simp [sinkStage, hlen]

/-- C1 witness: with an empty bot token the payload is emitted unchanged. -/
theorem c1_delivery_switch_amended_witness :
    sinkStage "" "C01,C02" { text := "t", blocks := [] } =
      SinkAction.emitPayload { text := "t", blocks := [] } :=
  (c1_delivery_switch_amended "" "C01,C02" { text := "t", blocks := [] }).2.1 rfl

/-- C9: the range resolver fails with `AmbiguousRangeInput` when neither the
single-tag form nor the from/to pair is given or when both are given; in
single-tag mode it fails with `NoLatestTag` on an empty tag lookup,
`NoPreviousTag` on a single tag, `TagMismatch` when the most recent tag's
name differs from the input, and otherwise selects the two most recent tags;
in pair mode it returns the endpoints built from the inputs with no lookup. -/
theorem c9_range_resolver (tag fromTag toTag : String) (tags : List TagRef) :
    (tag = "" → ¬(fromTag ≠ "" ∧ toTag ≠ "") →
      resolveRange tag fromTag toTag tags = Except.error ResolveError.AmbiguousRangeInput)
    ∧ (tag ≠ "" → fromTag ≠ "" → toTag ≠ "" →
      resolveRange tag fromTag toTag tags = Except.error ResolveError.AmbiguousRangeInput)
    ∧ (tag ≠ "" → fromTag = "" → toTag = "" →
      (tags = [] → resolveRange tag fromTag toTag tags = Except.error ResolveError.NoLatestTag)
      ∧ (∀ l, tags = [l] →
          resolveRange tag fromTag toTag tags = Except.error ResolveError.NoPreviousTag)
      ∧ (∀ l p rest, tags = l :: p :: rest →
          (l.name ≠ tag →
            resolveRange tag fromTag toTag tags = Except.error ResolveError.TagMismatch)
          ∧ (l.name = tag → resolveRange tag fromTag toTag tags = Except.ok (l, p))))
    ∧ (tag = "" → fromTag ≠ "" → toTag ≠ "" →
      resolveRange tag fromTag toTag tags = Except.ok ({ name := fromTag }, { name := toTag })) := by
  refine ⟨?_, ?_, ?_, ?_⟩
  · intro ht hpair
    subst ht
    simp [resolveRange, hpair]
  · intro ht hf htt
    simp [resolveRange, ht, hf, htt]
  · intro ht hf htt
    subst hf
    subst htt
    refine ⟨?_, ?_, ?_⟩
    · intro he
      subst he
      simp [resolveRange, ht]
    · intro l he
      subst he
      simp [resolveRange, ht]
    · intro l p rest he
      subst he
      constructor
      · intro hne
        simp [resolveRange, ht, hne]
      · intro heq
        simp [resolveRange, ht, heq]
  · intro ht hf htt
    subst ht
    simp [resolveRange, hf, htt]

/-- C9 witness: two tags exist and the input tag matches the most recent. -/
theorem c9_range_resolver_witness :
    resolveRange "v2" "" "" [{ name := "v2" }, { name := "v1" }] =
      Except.ok ({ name := "v2" }, { name := "v1" }) :=
  (((c9_range_resolver "v2" "" "" [{ name := "v2" }, { name := "v1" }]).2.2.1
      (by decide) rfl rfl).2.2 { name := "v2" } { name := "v1" } [] rfl).2 rfl

/-- The category loop renders nothing when there are no parsed commits. -/
theorem catBlocks_nil_parsed (excl : List String) :
    ∀ (rs : List CategoryRule) (idx : Nat), catBlocks excl [] rs idx = [] := by
  intro rs
  induction rs with
  | nil => intro idx; simp [catBlocks]
  | cons r rs ih =>
    intro idx
    by_cases h : excludedRule excl r
    · simp [catBlocks, h, ih]
    · simp [catBlocks, h, matchingCommits, ih]

/-- When every message fails to parse and the fallback policy is off, the
parse loop yields no parsed commits and no breaking changes. -/
theorem parseCommits_all_none (parse : String → Option CAst) :
    ∀ commits : List RawCommit, (∀ c ∈ commits, parse c.message = none) →
      parseCommits parse false commits = ([], []) := by
  intro commits
  induction commits with
  | nil => intro _; rfl
  | cons c rest ih =>
    intro hall
    have hc := hall c (List.mem_cons_self c rest)
    have hrest := ih (fun d hd => hall d (List.mem_cons_of_mem c hd))
    simp [parseCommits, hc, hrest]

/-- C3: every footer note titled exactly `BREAKING CHANGE` of a successfully
parsed commit contributes exactly one breaking-change record carrying the
commit's sha, url, subject, author and authorUrl and the note's text,
independently of the commit's type (the extraction never reads it) and of
`excludeTypes` (which the parse stage never sees); and whenever the collected
list is non-empty, the rendered blocks put the announcing section and the
per-record sections before the whole per-category part. -/
theorem c3_breaking_extraction (parse : String → Option CAst) (inc : Bool)
    (commits : List RawCommit) (title : String) (excl : List String) :
    (parseCommits parse inc commits).2 =
      commits.flatMap (fun c =>
        match parse c.message with
        | some ast =>
          (ast.notes.filter (fun n => n.title == "BREAKING CHANGE")).map (fun n =>
            { sha := c.sha, url := c.htmlUrl, subject := ast.subject,
              author := c.authorLogin, authorUrl := c.authorUrl, text := n.text })
        | none => [])
    ∧ (∀ (bcs : List BreakingChange) (ps : List ParsedCommit), bcs ≠ [] →
        buildBlocks title excl bcs ps =
          headerBlocks title ++
            (Block.sec ":boom: *BREAKING CHANGES*" :: bcs.map (fun b => Block.sec (bcText b))) ++
            catBlocks excl ps types 1) := by
  constructor
  · induction commits with
    | nil => rfl
    | cons c rest ih =>
      cases h : parse c.message with
      | some ast => simp [parseCommits, h, bcsOfCommit, ih]
      | none => cases inc <;> simp [parseCommits, h, ih]
  · intro bcs ps hne
    have hlen : 0 < bcs.length := List.length_pos.mpr hne
    simp [buildBlocks, bcBlocks, hlen]

/-- C3 witness: a non-empty breaking-change list is rendered ahead of the
category part. -/
theorem c3_breaking_extraction_witness :
    buildBlocks "T" [] [wBC] [] =
      headerBlocks "T" ++
        (Block.sec ":boom: *BREAKING CHANGES*" :: [wBC].map (fun b => Block.sec (bcText b))) ++
        catBlocks [] [] types 1 :=
  (c3_breaking_extraction (fun _ => none) false [] "T" []).2 [wBC] [] (by simp)

/-- C4: a commit whose message fails to parse contributes, with the fallback
policy on, exactly one parsed commit of type `other` whose subject is the
entire raw message with empty notes, and with the policy off nothing at all;
in both cases it contributes no breaking change, and the run still succeeds
(the failure never surfaces as an error). -/
theorem c4_invalid_commit_policy (parse : String → Option CAst) (inc : Bool)
    (commits : List RawCommit) (c : RawCommit) (h : parse c.message = none) :
    (parseCommits parse inc (c :: commits)).1 =
      (if inc then [fallbackCommit c] else []) ++ (parseCommits parse inc commits).1
    ∧ (parseCommits parse inc (c :: commits)).2 = (parseCommits parse inc commits).2
    ∧ fallbackCommit c =
      { type := "other", scope := none, subject := c.message, notes := [],
        sha := c.sha, url := c.htmlUrl, author := c.authorLogin, authorUrl := c.authorUrl }
    ∧ (∀ (ro : Bool) (title : String) (excl : List String), ∃ pl,
        changelog parse inc ro title excl (c :: commits) = Except.ok pl) := by
  refine ⟨?_, ?_, rfl, ?_⟩
  · cases inc <;> simp [parseCommits, h]
  · cases inc <;> simp [parseCommits, h]
  · intro ro title excl
    unfold changelog
    rw [if_neg (by simp)]
    exact ⟨_, rfl⟩

/-- C4 witness: one unparseable commit with the fallback policy on yields
exactly the fallback record. -/
theorem c4_invalid_commit_policy_witness :
    (parseCommits (fun _ => none) true [wCommit]).1 =
      (if true then [fallbackCommit wCommit] else []) ++ (parseCommits (fun _ => none) true []).1 :=
  (c4_invalid_commit_policy (fun _ => none) true [] wCommit rfl).1

/-- C7: the pipeline fails with `NoCommitsInRange` exactly when the raw commit
list is empty; when commits exist but none parses and the fallback policy is
off, the run still succeeds and its payload has no category sections (only
the optional header block). -/
theorem c7_empty_range (parse : String → Option CAst) (inc ro : Bool) (title : String)
    (excl : List String) (commits : List RawCommit) :
    (changelog parse inc ro title excl commits = Except.error PipelineError.NoCommitsInRange ↔
      commits = [])
    ∧ ((∀ c ∈ commits, parse c.message = none) → inc = false → commits ≠ [] →
        changelog parse inc ro title excl commits =
          Except.ok { text := title, blocks := headerBlocks title }) := by
  constructor
  · cases commits with
    | nil => simp [changelog]
    | cons c rest =>
      unfold changelog
      rw [if_neg (by simp)]
      simp
  · intro hall hinc hne
    subst hinc
    have hp := parseCommits_all_none parse commits hall
    have hlen : ¬(commits.length < 1) := by
      simpa [Nat.lt_one_iff, List.length_eq_zero] using hne
    unfold changelog
    rw [if_neg hlen, hp]
    cases ro <;> simp [buildBlocks, bcBlocks, catBlocks_nil_parsed]

/-- C7 witness: one unparseable commit, fallback off: the run succeeds with a
header-only payload. -/
theorem c7_empty_range_witness :
    changelog (fun _ => none) false false "T" [] [wCommit] =
      Except.ok { text := "T", blocks := headerBlocks "T" } :=
  (c7_empty_range (fun _ => none) false false "T" [] [wCommit]).2
    (fun _ _ => rfl) rfl (by simp)

/-- The category loop equals the group renderer run on exactly the
non-excluded rules with a non-empty match set, kept in table order. -/
theorem catBlocks_eq_renderGroups (excl : List String) (ps : List ParsedCommit) :
    ∀ (rs : List CategoryRule) (idx : Nat),
      catBlocks excl ps rs idx =
        renderGroups ps
          (rs.filter (fun r =>
            !excludedRule excl r && !(decide ((matchingCommits r ps).length < 1)))) idx := by
  intro rs
  induction rs with
  | nil => intro idx; rfl
  | cons r rs ih =>
    intro idx
    simp only [catBlocks]
    by_cases h1 : excludedRule excl r
    · rw [if_pos h1, List.filter_cons_of_neg, ih]
      simp [h1]
    · rw [if_neg h1]
      by_cases h2 : (matchingCommits r ps).length < 1
      · rw [if_pos h2, List.filter_cons_of_neg, ih]
        simp [h1, h2]
      · rw [if_neg h2, List.filter_cons_of_pos]
        · simp only [renderGroups]
          rw [ih]
        · simp [h1, h2]

/-- In the fixed category table no alias belongs to two different rules. -/
theorem types_alias_unique :
    ∀ r ∈ types, ∀ r' ∈ types, ∀ t ∈ r.types, t ∈ r'.types → r = r' := by decide

/-- C5: with `reverseOrder` set the pipeline renders the reversed parsed-commit
list, which reverses each category's matching-commit listing, while the
header-plus-breaking-changes prefix of the rendered blocks does not depend on
the parsed-commit list at all — so the breaking-changes sections, taken from
the unreversed extraction order, are identical for both flag values. -/
theorem c5_reverse_asymmetry (parse : String → Option CAst) (inc : Bool) (title : String)
    (excl : List String) (commits : List RawCommit) (hne : commits ≠ []) :
    changelog parse inc true title excl commits =
      Except.ok (Payload.mk title
        (buildBlocks title excl (parseCommits parse inc commits).2
          (parseCommits parse inc commits).1.reverse))
    ∧ changelog parse inc false title excl commits =
      Except.ok (Payload.mk title
        (buildBlocks title excl (parseCommits parse inc commits).2
          (parseCommits parse inc commits).1))
    ∧ (∀ ps : List ParsedCommit,
        (buildBlocks title excl (parseCommits parse inc commits).2 ps).take
            (headerBlocks title ++ bcBlocks (parseCommits parse inc commits).2).length =
          headerBlocks title ++ bcBlocks (parseCommits parse inc commits).2)
    ∧ (∀ r : CategoryRule,
        matchingCommits r ((parseCommits parse inc commits).1.reverse) =
          (matchingCommits r (parseCommits parse inc commits).1).reverse) := by
  have hlen : ¬(commits.length < 1) := by
    simpa [Nat.lt_one_iff, List.length_eq_zero] using hne
  refine ⟨?_, ?_, ?_, ?_⟩
  · unfold changelog
    rw [if_neg hlen]
    rfl
  · unfold changelog
    rw [if_neg hlen]
    rfl
  · intro ps
    unfold buildBlocks
    exact List.take_left _ _
  · intro r
    unfold matchingCommits
    exact List.filter_reverse _ _

/-- C5 witness: a concrete run with `reverseOrder` set renders the reversed
parsed list. -/
theorem c5_reverse_asymmetry_witness :
    changelog (fun _ => none) true true "T" [] [wCommit] =
      Except.ok (Payload.mk "T"
        (buildBlocks "T" [] (parseCommits (fun _ => none) true [wCommit]).2
          (parseCommits (fun _ => none) true [wCommit]).1.reverse)) :=
  (c5_reverse_asymmetry (fun _ => none) true "T" [] [wCommit] (by simp)).1

/-- C6: the rendered rules form a sublist of the fixed table (exclusion never
reorders), the built blocks are exactly the header part, the breaking-changes
part (present regardless of `excludeTypes`) and the groups of the rendered
rules, every rendered rule is non-excluded and lists only commits of its own
alias set, and a commit whose type belongs to an excluded rule's alias set
appears in no rendered rule's listing. -/
theorem c6_exclusion (title : String) (excl : List String) (bcs : List BreakingChange)
    (ps : List ParsedCommit) :
    (renderedRules excl ps).Sublist types
    ∧ buildBlocks title excl bcs ps =
        headerBlocks title ++ bcBlocks bcs ++
          renderGroups ps (renderedRules excl ps) (if 0 < bcs.length then 1 else 0)
    ∧ (∀ r ∈ renderedRules excl ps, excludedRule excl r = false ∧
        ∀ c ∈ matchingCommits r ps, c.type ∈ r.types)
    ∧ (∀ c : ParsedCommit, ∀ r' ∈ types, excludedRule excl r' = true → c.type ∈ r'.types →
        ∀ r ∈ renderedRules excl ps, c ∉ matchingCommits r ps) := by
  refine ⟨List.filter_sublist _, ?_, ?_, ?_⟩
  · simp [buildBlocks, catBlocks_eq_renderGroups, renderedRules]
  · intro r hr
    have hmem := List.mem_filter.mp hr
    have hcond := hmem.2
    simp only [Bool.and_eq_true, Bool.not_eq_true'] at hcond
    refine ⟨hcond.1, ?_⟩
    intro c hc
    have hctype := (List.mem_filter.mp hc).2
    simpa using hctype
  · intro c r' hr' hexcl htype r hr hcmem
    have hrt : r ∈ types := (List.mem_filter.mp hr).1
    have hctype : c.type ∈ r.types := by
      have := (List.mem_filter.mp hcmem).2
      simpa using this
    have hrr : r = r' := types_alias_unique r hrt r' hr' c.type hctype htype
    have hfalse : excludedRule excl r = false := by
      have hcond := (List.mem_filter.mp hr).2
      simp only [Bool.and_eq_true, Bool.not_eq_true'] at hcond
      exact hcond.1
    rw [hrr] at hfalse
    rw [hfalse] at hexcl
    exact Bool.noConfusion hexcl

/-- C6 witness: with `chore` excluded, the chore-typed commit is absent from
the rendered feature rule's listing. -/
theorem c6_exclusion_witness :
    wParsedChore ∉ matchingCommits
      { types := ["feat", "feature"], header := "New Features", icon := ":sparkles:" }
      [wParsedFeat, wParsedChore] :=
  (c6_exclusion "T" ["chore"] [] [wParsedFeat, wParsedChore]).2.2.2 wParsedChore
    { types := ["chore"], header := "Chores", icon := ":wrench:" } (by decide) (by decide)
    (by decide)
    { types := ["feat", "feature"], header := "New Features", icon := ":sparkles:" } (by decide)

/-- Correctness of the pagination loop against a well-behaved page interface:
entered at page `k + 1` with the first `k * 100` commits accumulated, it
finishes with the whole commit list and a final page counter of
`max 1 (ceil (T / 100))`. -/
theorem fetchPages_spec (fetch : Nat → FetchPage) (L : List RawCommit) (T : Nat)
    (hL : L.length = T)
    (hfetch : ∀ p, 1 ≤ p → fetch p = { total := T, commits := (L.drop ((p - 1) * 100)).take 100 }) :
    ∀ fuel k, T ≤ k * 100 + fuel * 100 → 1 ≤ fuel → (k = 0 ∨ k * 100 < T) →
      fetchPages fetch fuel k (L.take (k * 100)) = some (L, max 1 ((T + 99) / 100)) := by
  intro fuel
  induction fuel with
  | zero => intro k _ h1 _; omega
  | succ fuel ih =>
    intro k hbound _ hk
    simp only [fetchPages]
    rw [hfetch (k + 1) (by omega)]
    simp only [Nat.add_sub_cancel]
    have hlen : ((L.drop (k * 100)).take 100).length = min 100 (T - k * 100) := by
      simp [List.length_take, List.length_drop, hL]
    have hacc : L.take (k * 100) ++ (L.drop (k * 100)).take 100 = L.take (k * 100 + 100) :=
      (List.take_add L (k * 100) 100).symm
    rw [hlen, hacc]
    by_cases hT : T ≤ (k + 1) * 100
    · rw [if_neg (by omega)]
      have hall : L.take (k * 100 + 100) = L := List.take_of_length_le (by omega)
      rw [hall]
      have : k + 1 = max 1 ((T + 99) / 100) := by omega
      rw [this]
    · rw [if_pos (by omega)]
      have h100 : k * 100 + 100 = (k + 1) * 100 := by ring
      rw [h100]
      exact ih (k + 1) (by omega) (by omega) (Or.inr (by omega))

/-- C2 counterexample: when the interface declares `totalCount = 0` the claim
asks for `ceil (0 / 100) = 0` page requests, but the do-while loop always
issues its first request: the fetcher performs exactly one page request (with
any fuel) and returns zero commits. -/
theorem c2_pagination_cex :
    fetchAllCommits (fun _ => { total := 0, commits := [] }) 1 = some ([], 1)
    ∧ fetchAllCommits (fun _ => { total := 0, commits := [] }) 5 = some ([], 1)
    ∧ (0 + 99) / 100 = 0 :=
  ⟨rfl, rfl, rfl⟩

/-- C2 amended: against a page interface declaring `totalCount = T` and
serving full 100-commit pages (the last possibly partial), the fetcher issues
exactly `max 1 (ceil (T / 100))` page requests — pages `1, 2, ...` in order,
at least one even when `T = 0` — and returns exactly the `T` commits
concatenated in request order. -/
theorem c2_pagination_amended (L : List RawCommit) (T : Nat) (fetch : Nat → FetchPage)
    (hL : L.length = T)
    (hfetch : ∀ p, 1 ≤ p → fetch p = { total := T, commits := (L.drop ((p - 1) * 100)).take 100 }) :
    fetchAllCommits fetch (T / 100 + 1) = some (L, max 1 ((T + 99) / 100)) := by
  have h := fetchPages_spec fetch L T hL hfetch (T / 100 + 1) 0 (by omega) (by omega) (Or.inl rfl)
  simpa [fetchAllCommits] using h

/-- C2 witness: a two-commit range is fetched in one page request. -/
theorem c2_pagination_amended_witness :
    fetchAllCommits
        (fun p => { total := 2, commits := (([wCommit, wCommit2].drop ((p - 1) * 100))).take 100 })
        (2 / 100 + 1) =
      some ([wCommit, wCommit2], max 1 ((2 + 99) / 100)) :=
  c2_pagination_amended [wCommit, wCommit2] 2 _ rfl (fun _ _ => rfl)

/-- C8: for the two-commit scenario `fix: a` / `feat: b` (in that input
order), empty exclusion input, `reverseOrder` off and title `Release`, the
block sequence is the header, the New Features heading, the `feat` commit
line with author and short sha, one divider, the Bug Fixes heading, and the
`fix` commit line — category order follows the fixed table, and no divider
precedes the first rendered section. -/
theorem c8_end_to_end (parse : String → Option CAst) (inc : Bool)
    (hfix : parse "fix: a" = some { type := "fix", scope := none, subject := "a", notes := [] })
    (hfeat : parse "feat: b" = some { type := "feat", scope := none, subject := "b", notes := [] }) :
    changelog parse inc false "Release" (jsSplitTrim "") [cFix, cFeat] =
      Except.ok (Payload.mk "Release"
        [Block.header "Release",
         Block.sec ":sparkles: *New Features*",
         Block.sec "b by bob def5678",
         Block.divider,
         Block.sec ":bug: *Bug Fixes*",
         Block.sec "a by alice abc1234"]) := by
  have hp : parseCommits parse inc [cFix, cFeat] =
      ([mkParsed cFix { type := "fix", scope := none, subject := "a", notes := [] },
        mkParsed cFeat { type := "feat", scope := none, subject := "b", notes := [] }], []) := by
    simp [parseCommits, cFix, cFeat, hfix, hfeat, bcsOfCommit]
  unfold changelog
  rw [if_neg (by simp), hp]
  rfl

/-- C8 witness: the scenario run with a concrete parser for the two
messages. -/
theorem c8_end_to_end_witness :
    changelog parseEx false false "Release" (jsSplitTrim "") [cFix, cFeat] =
      Except.ok (Payload.mk "Release"
        [Block.header "Release",
         Block.sec ":sparkles: *New Features*",
         Block.sec "b by bob def5678",
         Block.divider,
         Block.sec ":bug: *Bug Fixes*",
         Block.sec "a by alice abc1234"]) :=
  c8_end_to_end parseEx false rfl rfl

/-- A block that is not a divider can be prepended to a divider-disciplined
list. -/
theorem dividersOk_cons (b : Block) (l : List Block) (hb : b ≠ Block.divider)
    (h : dividersOk l) : dividersOk (b :: l) := by
  cases b with
  | header t => simpa [dividersOk] using h
  | sec t => simpa [dividersOk] using h
  | divider => exact absurd rfl hb

/-- The tail of a divider-disciplined list is divider-disciplined. -/
theorem dividersOk_of_cons (b : Block) (l : List Block) (h : dividersOk (b :: l)) :
    dividersOk l := by
  cases b with
  | header t => simpa [dividersOk] using h
  | sec t => simpa [dividersOk] using h
  | divider => exact h.2

/-- Prepending divider-free blocks preserves divider discipline. -/
theorem dividersOk_append (xs l : List Block) (hxs : ∀ b ∈ xs, b ≠ Block.divider)
    (h : dividersOk l) : dividersOk (xs ++ l) := by
  induction xs with
  | nil => simpa using h
  | cons b bs ih =>
    have hb := hxs b (List.mem_cons_self b bs)
    have htl := ih (fun x hx => hxs x (List.mem_cons_of_mem b hx))
    exact dividersOk_cons b (bs ++ l) hb htl

/-- Every divider emitted by the category loop is immediately followed by the
heading section of a table rule. -/
theorem catBlocks_dividersOk (excl : List String) (ps : List ParsedCommit) :
    ∀ rs : List CategoryRule, (∀ r ∈ rs, r ∈ types) → ∀ idx,
      dividersOk (catBlocks excl ps rs idx) := by
  intro rs
  induction rs with
  | nil => intro _ idx; simp [catBlocks, dividersOk]
  | cons r rs ih =>
    intro hmem idx
    have hr : r ∈ types := hmem r (List.mem_cons_self r rs)
    have hrs : ∀ x ∈ rs, x ∈ types := fun x hx => hmem x (List.mem_cons_of_mem r hx)
    simp only [catBlocks]
    by_cases h1 : excludedRule excl r
    · rw [if_pos h1]; exact ih hrs idx
    · rw [if_neg h1]
      by_cases h2 : (matchingCommits r ps).length < 1
      · rw [if_pos h2]; exact ih hrs idx
      · rw [if_neg h2]
        have htail : dividersOk
            ((matchingCommits r ps).map (fun c => Block.sec (commitText c)) ++
              catBlocks excl ps rs (idx + 1)) := by
          apply dividersOk_append
          · intro b hb
            rcases List.mem_map.mp hb with ⟨c, _, hc⟩
            simp [← hc]
          · exact ih hrs (idx + 1)
        have hsec : dividersOk (Block.sec (catHeaderText r) ::
            ((matchingCommits r ps).map (fun c => Block.sec (commitText c)) ++
              catBlocks excl ps rs (idx + 1))) :=
          dividersOk_cons _ _ (by simp) htail
        by_cases h3 : 0 < idx
        · rw [if_pos h3]
          exact ⟨⟨r, hr, rfl⟩, hsec⟩
        · rw [if_neg h3]
          simpa using hsec

/-- With no group rendered yet, the category loop never starts with a
divider. -/
theorem catBlocks_head_ne_divider (excl : List String) (ps : List ParsedCommit) :
    ∀ rs : List CategoryRule, (catBlocks excl ps rs 0).head? ≠ some Block.divider := by
  intro rs
  induction rs with
  | nil => simp [catBlocks]
  | cons r rs ih =>
    simp only [catBlocks]
    by_cases h1 : excludedRule excl r
    · rw [if_pos h1]; exact ih
    · rw [if_neg h1]
      by_cases h2 : (matchingCommits r ps).length < 1
      · rw [if_pos h2]; exact ih
      · rw [if_neg h2]
        simp

/-- The built block sequence never starts with a divider. -/
theorem buildBlocks_head_ne_divider (title : String) (excl : List String)
    (bcs : List BreakingChange) (ps : List ParsedCommit) :
    (buildBlocks title excl bcs ps).head? ≠ some Block.divider := by
  unfold buildBlocks
  by_cases ht : title = ""
  · subst ht
    simp only [headerBlocks, ne_eq, not_true_eq_false, if_false, List.nil_append]
    by_cases hb : 0 < bcs.length
    · simp [bcBlocks, hb]
    · simp only [bcBlocks, hb, if_false, List.nil_append, if_neg hb]
      exact catBlocks_head_ne_divider excl ps types
  · simp [headerBlocks, ht]

/-- The optional header part contains no divider. -/
theorem headerBlocks_no_divider (title : String) :
    ∀ b ∈ headerBlocks title, b ≠ Block.divider := by
  intro b hb
  unfold headerBlocks at hb
  by_cases ht : title ≠ ""
  · rw [if_pos ht] at hb
    simp at hb
    subst hb
    simp
  · rw [if_neg ht] at hb
    simp at hb

/-- The breaking-changes part contains no divider. -/
theorem bcBlocks_no_divider (bcs : List BreakingChange) :
    ∀ b ∈ bcBlocks bcs, b ≠ Block.divider := by
  intro b hb
  unfold bcBlocks at hb
  by_cases h : 0 < bcs.length
  · rw [if_pos h] at hb
    rcases List.mem_cons.mp hb with h1 | h1
    · subst h1; simp
    · rcases List.mem_map.mp h1 with ⟨x, _, hx⟩
      rw [← hx]; simp
  · rw [if_neg h] at hb
    simp at hb

/-- The whole block sequence is divider-disciplined. -/
theorem buildBlocks_dividersOk (title : String) (excl : List String)
    (bcs : List BreakingChange) (ps : List ParsedCommit) :
    dividersOk (buildBlocks title excl bcs ps) := by
  unfold buildBlocks
  apply dividersOk_append
  · intro b hb
    rcases List.mem_append.mp hb with h | h
    · exact headerBlocks_no_divider title b h
    · exact bcBlocks_no_divider bcs b h
  · exact catBlocks_dividersOk excl ps types (fun r hr => hr) _

/-- In a divider-disciplined list, the position after each divider holds the
heading section of some table rule. -/
theorem dividersOk_get (l : List Block) (h : dividersOk l) :
    ∀ i, l[i]? = some Block.divider →
      ∃ r, r ∈ types ∧ l[i + 1]? = some (Block.sec (catHeaderText r)) := by
  induction l with
  | nil => intro i hi; simp at hi
  | cons b bs ih =>
    intro i hi
    cases i with
    | zero =>
      simp at hi
      subst hi
      obtain ⟨⟨r, hr, hhead⟩, _⟩ := h
      cases bs with
      | nil => simp at hhead
      | cons b2 bs2 =>
        simp at hhead
        exact ⟨r, hr, by simp [hhead]⟩
    | succ i =>
      have hbs := dividersOk_of_cons b bs h
      obtain ⟨r, hr, hnext⟩ := ih hbs i (by simpa using hi)
      exact ⟨r, hr, by simpa using hnext⟩

/-- C10: in every produced block sequence, a divider never appears first,
never last, never next to another divider, and is always immediately followed
by the heading section of a category rule. -/
theorem c10_divider_invariant (title : String) (excl : List String)
    (bcs : List BreakingChange) (ps : List ParsedCommit) (i : Nat) :
    (buildBlocks title excl bcs ps).head? ≠ some Block.divider
    ∧ ((buildBlocks title excl bcs ps)[i]? = some Block.divider →
        i + 1 < (buildBlocks title excl bcs ps).length
        ∧ (buildBlocks title excl bcs ps)[i + 1]? ≠ some Block.divider
        ∧ ∃ r, r ∈ types ∧
            (buildBlocks title excl bcs ps)[i + 1]? = some (Block.sec (catHeaderText r))) := by
  refine ⟨buildBlocks_head_ne_divider title excl bcs ps, fun hdiv => ?_⟩
  obtain ⟨r, hr, hnext⟩ :=
    dividersOk_get (buildBlocks title excl bcs ps) (buildBlocks_dividersOk title excl bcs ps) i hdiv
  refine ⟨?_, ?_, r, hr, hnext⟩
  · have := List.getElem?_eq_some.mp hnext
    exact this.1
  · rw [hnext]
    simp

/-- C10 witness: in a concrete two-category rendering the divider at index 3
is followed in bounds by a non-divider block. -/
theorem c10_divider_invariant_witness :
    3 + 1 < (buildBlocks "T" [] [] [wParsedFeat, wParsedChore]).length
    ∧ (buildBlocks "T" [] [] [wParsedFeat, wParsedChore])[3 + 1]? ≠ some Block.divider :=
  ⟨((c10_divider_invariant "T" [] [] [wParsedFeat, wParsedChore] 3).2 (by decide)).1,
   ((c10_divider_invariant "T" [] [] [wParsedFeat, wParsedChore] 3).2 (by decide)).2.1⟩

end Changelog
